import Mathlib

/-!
Verification development for the CEL interpreter core: the attribute-resolution
subsystem (src/ext/indexer/program.go) and the instruction compiler / constant
folder (src/interpreter/program.go). Go values are shallowly embedded; each
definition mirrors the function of the same name in the source, and the
theorems at the end settle the spec claims C1 through C10.
-/

namespace CelCore

/-- Uninterpreted float32 payload. The resolver only stores and retrieves
float values, never computes with them, so the payload is opaque. -/
structure Float32Bits where
  bits : Int
deriving DecidableEq, Repr

/-- Uninterpreted float64 payload, see Float32Bits. -/
structure Float64Bits where
  bits : Int
deriving DecidableEq, Repr

/-- Modelled from the spec: the external ref.Val value universe of the types
library (not under src/), restricted to the kinds the resolver code touches:
strings, ints, bools, doubles, null, plus the error and unknown sentinels.
An unknown carries the originating expression ids (types.Unknown is an
int64 slice in the source). -/
inductive RefVal where
  | str (s : String)
  | int (n : Int)
  | bool (b : Bool)
  | double (x : Float64Bits)
  | null
  | err (msg : String)
  | unknown (ids : List Int)
deriving DecidableEq, Repr

/-- Modelled from the spec: types.ValOrErr of the external types library (not
under src/). Per the dominance rule of the spec, an error or unknown input
passes through untouched; any other value is replaced by a fresh error. -/
def valOrErr (v : RefVal) (msg : String) : RefVal :=
  match v with
  | .err m => .err m
  | .unknown ids => .unknown ids
  | _ => .err msg

/-- Protobuf struct-value kinds (structpb.Value). unsetKind models a nil Kind
field. -/
inductive PbValue where
  | nullValue
  | numberValue (x : Float64Bits)
  | stringValue (s : String)
  | boolValue (b : Bool)
  | structValue (fields : List (String × PbValue))
  | listValue (elems : List PbValue)
  | unsetKind

/-- Proto messages dispatched by getProtoField: anypb.Any (nil pointer,
failed unmarshal, or successfully unpacked inner message), structpb.Value
(nil pointer or a kind), structpb.Struct, structpb.ListValue, and any other
proto message (handled through the pluggable adapter). -/
inductive PbMessage where
  | anyNil
  | anyBadType (typeUrl : String)
  | anyMsg (inner : PbMessage) (typeUrl : String)
  | valueNil
  | value (kind : PbValue)
  | structMsg (fields : List (String × PbValue))
  | listValueMsg (elems : List PbValue)
  | otherMsg (tag : Int)

/-- The Go interface-value universe flowing through the resolver: the typed
map and slice shapes the source switches on, proto messages, values exposing
the traits.Indexer capability, CEL ref.Val values, native scalars (as
returned by the typed map and slice accessors), and one representative
native map with non-string keys that reaches the reflective default branch. -/
inductive GoVal where
  | mapStrIface (m : List (String × GoVal))
  | mapStrStr (m : List (String × String))
  | mapStrF32 (m : List (String × Float32Bits))
  | mapStrF64 (m : List (String × Float64Bits))
  | mapStrInt (m : List (String × Int))
  | mapStrI32 (m : List (String × Int))
  | mapStrI64 (m : List (String × Int))
  | mapStrBool (m : List (String × Bool))
  | listIface (l : List GoVal)
  | listStr (l : List String)
  | listF32 (l : List Float32Bits)
  | listF64 (l : List Float64Bits)
  | listInt (l : List Int)
  | listI32 (l : List Int)
  | listI64 (l : List Int)
  | protoMsg (m : PbMessage)
  | indexer (get : RefVal → GoVal)
  | ref (v : RefVal)
  | strVal (s : String)
  | f32Val (x : Float32Bits)
  | f64Val (x : Float64Bits)
  | intVal (n : Int)
  | i32Val (n : Int)
  | i64Val (n : Int)
  | boolVal (b : Bool)
  | mapIntStr (m : List (Int × String))

/-- Association-list lookup standing in for a Go map read. -/
def assocLookup {κ α : Type} [DecidableEq κ] : List (κ × α) → κ → Option α
  | [], _ => none
  | (k, v) :: rest, key => if k = key then some v else assocLookup rest key

/-- Result of the pluggable adapter NativeToValue call: either a value
exposing the indexing capability or a plain ref.Val. -/
inductive AdaptedVal where
  | indexer (get : RefVal → GoVal)
  | nonIndexer (v : RefVal)

/-- defaultResolver: carries the pluggable type adapter used by the
reflective last-resort branch. The adapter is an external collaborator
(spec section 4.3) and is kept abstract. -/
structure DefaultResolver where
  adapter : GoVal → AdaptedVal

/-- getMapStrVal: string-keyed map of strings. The non-string selector case
returns the overload error (this accessor has the return statement). -/
def getMapStrVal (m : List (String × String)) (k : RefVal) : GoVal :=
  match k with
  | .str key =>
    match assocLookup m key with
    | none => .ref (.err "no such key")
    | some v => .strVal v
  | _ => .ref (valOrErr k "no such overload")

/-- getMapFloat32Val. In the source the non-string selector branch computes
types.ValOrErr without returning it, so execution falls through with the
zero-value key (the empty string). The embedding reproduces that. -/
def getMapFloat32Val (m : List (String × Float32Bits)) (k : RefVal) : GoVal :=
  let key : String := match k with | .str s => s | _ => ""
  match assocLookup m key with
  | none => .ref (.err "no such key")
  | some v => .f32Val v

/-- getMapFloat64Val, with the same missing return as getMapFloat32Val. -/
def getMapFloat64Val (m : List (String × Float64Bits)) (k : RefVal) : GoVal :=
  let key : String := match k with | .str s => s | _ => ""
  match assocLookup m key with
  | none => .ref (.err "no such key")
  | some v => .f64Val v

/-- getMapIntVal, with the same missing return as getMapFloat32Val. -/
def getMapIntVal (m : List (String × Int)) (k : RefVal) : GoVal :=
  let key : String := match k with | .str s => s | _ => ""
  match assocLookup m key with
  | none => .ref (.err "no such key")
  | some v => .intVal v

/-- getMapInt32Val, with the same missing return as getMapFloat32Val. -/
def getMapInt32Val (m : List (String × Int)) (k : RefVal) : GoVal :=
  let key : String := match k with | .str s => s | _ => ""
  match assocLookup m key with
  | none => .ref (.err "no such key")
  | some v => .i32Val v

/-- getMapInt64Val, with the same missing return as getMapFloat32Val. -/
def getMapInt64Val (m : List (String × Int)) (k : RefVal) : GoVal :=
  let key : String := match k with | .str s => s | _ => ""
  match assocLookup m key with
  | none => .ref (.err "no such key")
  | some v => .i64Val v

/-- getMapBoolVal, with the same missing return as getMapFloat32Val. -/
def getMapBoolVal (m : List (String × Bool)) (k : RefVal) : GoVal :=
  let key : String := match k with | .str s => s | _ => ""
  match assocLookup m key with
  | none => .ref (.err "no such key")
  | some v => .boolVal v

/-- getListIFaceVal: integer-indexed access into a heterogeneous slice. -/
def getListIFaceVal (l : List GoVal) (i : RefVal) : GoVal :=
  match i with
  | .int idx =>
    if h : 0 ≤ idx ∧ idx < (l.length : Int) then
      l.get ⟨idx.toNat, by omega⟩
    else .ref (valOrErr (.int idx) "index out of range")
  | _ => .ref (valOrErr i "no such overload")

/-- getListStrVal. -/
def getListStrVal (l : List String) (i : RefVal) : GoVal :=
  match i with
  | .int idx =>
    if h : 0 ≤ idx ∧ idx < (l.length : Int) then
      .strVal (l.get ⟨idx.toNat, by omega⟩)
    else .ref (valOrErr (.int idx) "index out of range")
  | _ => .ref (valOrErr i "no such overload")

/-- getListFloat32Val. -/
def getListFloat32Val (l : List Float32Bits) (i : RefVal) : GoVal :=
  match i with
  | .int idx =>
    if h : 0 ≤ idx ∧ idx < (l.length : Int) then
      .f32Val (l.get ⟨idx.toNat, by omega⟩)
    else .ref (valOrErr (.int idx) "index out of range")
  | _ => .ref (valOrErr i "no such overload")

/-- getListFloat64Val. -/
def getListFloat64Val (l : List Float64Bits) (i : RefVal) : GoVal :=
  match i with
  | .int idx =>
    if h : 0 ≤ idx ∧ idx < (l.length : Int) then
      .f64Val (l.get ⟨idx.toNat, by omega⟩)
    else .ref (valOrErr (.int idx) "index out of range")
  | _ => .ref (valOrErr i "no such overload")

/-- getListIntVal. -/
def getListIntVal (l : List Int) (i : RefVal) : GoVal :=
  match i with
  | .int idx =>
    if h : 0 ≤ idx ∧ idx < (l.length : Int) then
      .intVal (l.get ⟨idx.toNat, by omega⟩)
    else .ref (valOrErr (.int idx) "index out of range")
  | _ => .ref (valOrErr i "no such overload")

/-- getListInt32Val. -/
def getListInt32Val (l : List Int) (i : RefVal) : GoVal :=
  match i with
  | .int idx =>
    if h : 0 ≤ idx ∧ idx < (l.length : Int) then
      .i32Val (l.get ⟨idx.toNat, by omega⟩)
    else .ref (valOrErr (.int idx) "index out of range")
  | _ => .ref (valOrErr i "no such overload")

/-- getListInt64Val. -/
def getListInt64Val (l : List Int) (i : RefVal) : GoVal :=
  match i with
  | .int idx =>
    if h : 0 ≤ idx ∧ idx < (l.length : Int) then
      .i64Val (l.get ⟨idx.toNat, by omega⟩)
    else .ref (valOrErr (.int idx) "index out of range")
  | _ => .ref (valOrErr i "no such overload")

/-- maybeUnwrapValue: unwraps bool, null, number and string JSON values to
their native representations; other kinds stay wrapped in the Value message. -/
def maybeUnwrapValue : PbValue → GoVal
  | .boolValue b => .boolVal b
  | .nullValue => .ref .null
  | .numberValue x => .f64Val x
  | .stringValue s => .strVal s
  | v => .protoMsg (.value v)

/-- getStructField: string-keyed lookup in a structpb.Struct field map. -/
def getStructField (fields : List (String × PbValue)) (k : RefVal) : GoVal :=
  match k with
  | .str key =>
    match assocLookup fields key with
    | none => .ref (.err "no such key")
    | some v => maybeUnwrapValue v
  | _ => .ref (valOrErr k "no such overload")

/-- getListValueElem: integer-indexed access into a structpb.ListValue. -/
def getListValueElem (elems : List PbValue) (i : RefVal) : GoVal :=
  match i with
  | .int idx =>
    if h : 0 ≤ idx ∧ idx < (elems.length : Int) then
      maybeUnwrapValue (elems.get ⟨idx.toNat, by omega⟩)
    else .ref (.err "index out of range")
  | _ => .ref (valOrErr i "no such overload")

/-- getProtoField: unpacks Any messages, recurses into struct and list
values (the source recurses through getProtoField which then dispatches to
getStructField and getListValueElem; the dispatch step is inlined here), and
sends any other message through the adapter. -/
def getProtoField (res : DefaultResolver) (m : PbMessage) (elem : RefVal) : GoVal :=
  match m with
  | .anyNil => .ref (.err "unsupported type conversion")
  | .anyBadType typeUrl => .ref (.err ("unknown type: " ++ typeUrl))
  | .anyMsg inner _ => getProtoField res inner elem
  | .valueNil => .ref (.err "no such overload")
  | .value (.structValue fields) => getStructField fields elem
  | .value (.listValue elems) => getListValueElem elems elem
  | .value _ => .ref (.err "no such overload")
  | .structMsg fields => getStructField fields elem
  | .listValueMsg elems => getListValueElem elems elem
  | .otherMsg tag =>
    match res.adapter (GoVal.protoMsg (.otherMsg tag)) with
    | .indexer g => g elem
    | .nonIndexer v => .ref (valOrErr v "no such overload")

/-- getElem: one selector step, the big shape-dispatch switch of the
resolver. The cases appear in the order of the source type switch: typed
maps, typed slices, proto messages, indexer capability, error and unknown
pass-through, other ref.Val values, then the reflective default branch. -/
def getElem (res : DefaultResolver) (obj : GoVal) (elem : RefVal) : GoVal :=
  match obj with
  | .mapStrIface m =>
    match elem with
    | .str key =>
      match assocLookup m key with
      | none => .ref (.err "no such key")
      | some v => v
    | _ => .ref (valOrErr elem "no such overload")
  | .mapStrStr m => getMapStrVal m elem
  | .mapStrF32 m => getMapFloat32Val m elem
  | .mapStrF64 m => getMapFloat64Val m elem
  | .mapStrInt m => getMapIntVal m elem
  | .mapStrI32 m => getMapInt32Val m elem
  | .mapStrI64 m => getMapInt64Val m elem
  | .mapStrBool m => getMapBoolVal m elem
  | .listIface l => getListIFaceVal l elem
  | .listStr l => getListStrVal l elem
  | .listF32 l => getListFloat32Val l elem
  | .listF64 l => getListFloat64Val l elem
  | .listInt l => getListIntVal l elem
  | .listI32 l => getListInt32Val l elem
  | .listI64 l => getListInt64Val l elem
  | .protoMsg m => getProtoField res m elem
  | .indexer g => g elem
  | .ref (.err m) => .ref (.err m)
  | .ref (.unknown ids) => .ref (.unknown ids)
  | .ref v => .ref (valOrErr v "no such overload")
  | .mapIntStr m =>
    match res.adapter (GoVal.mapIntStr m) with
    | .indexer g => g elem
    | .nonIndexer v => .ref (valOrErr v "no such overload")
  | .strVal _ => .ref (.err "no such overload")
  | .f32Val _ => .ref (.err "no such overload")
  | .f64Val _ => .ref (.err "no such overload")
  | .intVal _ => .ref (.err "no such overload")
  | .i32Val _ => .ref (.err "no such overload")
  | .i64Val _ => .ref (.err "no such overload")
  | .boolVal _ => .ref (.err "no such overload")

/-- Modelled from the spec: the variable reference of an Attribute (name
plus expression id). The attribute data model file is not under src/. -/
structure VariableDecl where
  Name : String
  ID : Int
deriving DecidableEq, Repr

/-- Modelled from the spec: one selector element; it carries its expression
id, and ToValue evaluates it against the current activation. The resolution
code consumes only the evaluated value, so the element stores it directly. -/
structure PathElem where
  ID : Int
  val : RefVal
deriving DecidableEq, Repr

/-- Modelled from the spec: an attribute is a variable reference plus an
ordered selector path. -/
structure Attribute where
  Variable : VariableDecl
  Path : List PathElem
deriving DecidableEq, Repr

/-- ToValue of a selector element against an activation (the element stores
its already-computed value, which is all that the resolver code reads). -/
def PathElem.ToValue {α : Type} (e : PathElem) (_vars : α) : RefVal := e.val

/-- Modelled from the spec: the activation boundary. Find is the variable
lookup; FindUnknowns is the unknown-candidate lookup and is present exactly
when the activation is a PartialActivation. A FindUnknowns result of none
for a name models the found = false return. -/
structure Activation where
  Find : String → Option GoVal
  FindUnknowns : Option (String → Option (List Attribute))

/-- Resolver interface: Resolve (value, found) and ResolveRelative. -/
structure Resolver where
  Resolve : Activation → Attribute → Option GoVal × Bool
  ResolveRelative : GoVal → Activation → Attribute → GoVal

/-- The selector-path walk shared by Resolve and ResolveRelative: the for
loop obj = getElem(obj, elem.ToValue(vars)) over the attribute path. -/
def walkPath (res : DefaultResolver) (vars : Activation) (obj : GoVal)
    (path : List PathElem) : GoVal :=
  path.foldl (fun o e => getElem res o (e.ToValue vars)) obj

/-- defaultResolver.Resolve: a missing top-level variable returns
(nil, false); otherwise the path is walked and (value, true) returned. -/
def defaultResolve (res : DefaultResolver) (vars : Activation)
    (attr : Attribute) : Option GoVal × Bool :=
  match vars.Find attr.Variable.Name with
  | none => (none, false)
  | some obj => (some (walkPath res vars obj attr.Path), true)

/-- defaultResolver.ResolveRelative: walks the path over an
already-materialized object; no variable lookup, so no found flag. -/
def defaultResolveRelative (res : DefaultResolver) (obj : GoVal)
    (vars : Activation) (attr : Attribute) : GoVal :=
  walkPath res vars obj attr.Path

/-- Bundles the default resolver functions behind the Resolver interface. -/
def DefaultResolver.toResolver (res : DefaultResolver) : Resolver :=
  ⟨defaultResolve res, fun obj vars attr => defaultResolveRelative res obj vars attr⟩

/-- Reserved wildcard marker: any selection matches an unknown attribute. -/
def wildcard : RefVal := .str "*"

/-- Modelled from the spec: value-level equality of the external types
library (ref.Val.Equal), returning the CEL boolean True exactly when the
two values are equal. -/
def refValEqual (a b : RefVal) : RefVal :=
  if a = b then .bool true else .bool false

/-- The inner candidate loop of unknownResolver.Resolve: compares the
candidate path against the queried path element by element up to the
shorter length, tracking candUnkID (the id of the last compared queried
element, initially the variable id). Returns (isMatch, candUnkID). -/
def unknownMatchLoop (vars : Activation) :
    List PathElem → List PathElem → Int → Bool × Int
  | [], _, candUnkID => (true, candUnkID)
  | _ :: _, [], candUnkID => (true, candUnkID)
  | candElem :: cs, varElem :: vs, _ =>
    let candUnkID := varElem.ID
    let candElemVal := candElem.ToValue vars
    if candElemVal = wildcard then unknownMatchLoop vars cs vs candUnkID
    else if refValEqual candElemVal (varElem.ToValue vars) = RefVal.bool true then
      unknownMatchLoop vars cs vs candUnkID
    else (false, candUnkID)

/-- The outer candidate loop of unknownResolver.Resolve: the first matching
candidate yields its candUnkID. -/
def findUnknownMatch (vars : Activation) (varPath : List PathElem)
    (varID : Int) : List Attribute → Option Int
  | [] => none
  | cand :: rest =>
    let r := unknownMatchLoop vars cand.Path varPath varID
    if r.1 then some r.2 else findUnknownMatch vars varPath varID rest

/-- unknownResolver.Resolve: when the activation supports unknown-candidate
lookup and candidates exist for the variable, the first matching candidate
produces an unknown sentinel tagged with candUnkID; otherwise resolution is
delegated to the wrapped resolver. -/
def unknownResolverResolve (inner : Resolver) (vars : Activation)
    (attr : Attribute) : Option GoVal × Bool :=
  match vars.FindUnknowns with
  | none => inner.Resolve vars attr
  | some findUnk =>
    match findUnk attr.Variable.Name with
    | none => inner.Resolve vars attr
    | some candUnknowns =>
      match findUnknownMatch vars attr.Path attr.Variable.ID candUnknowns with
      | some unkID => (some (.ref (.unknown [unkID])), true)
      | none => inner.Resolve vars attr

/-! Instruction compiler and constant folder (src/interpreter/program.go). -/

/-- Modelled from the spec: operator and overload name constants of the
external operators and overloads packages (not under src/). Only their
distinctness matters to the folding code. -/
def logicalAnd : String := "_&&_"

/-- Logical-or operator name, see logicalAnd. -/
def logicalOr : String := "_||_"

/-- Not-strictly-false guard of the iteration protocol, see logicalAnd. -/
def notStrictlyFalse : String := "@not_strictly_false"

/-- Deprecated not-strictly-false guard name, see logicalAnd. -/
def oldNotStrictlyFalse : String := "__not_strictly_false__"

/-- Iterator constructor of the iteration protocol, see logicalAnd. -/
def iteratorOverload : String := "@iterator"

/-- Iterator has-next probe of the iteration protocol, see logicalAnd. -/
def hasNextOverload : String := "@hasNext"

/-- Iterator next step of the iteration protocol, see logicalAnd. -/
def nextOverload : String := "@next"

/-- Modelled from the spec: a bound function implementation with
arity-specific call forms and an optional required operand trait (0 means
none). The functions package is not under src/. -/
structure Impl where
  OperandTrait : Int
  Unary : RefVal → RefVal
  Binary : RefVal → RefVal → RefVal

/-- CallExpr instruction payload: expression id, function name, argument
expression ids, and the optionally bound implementation. -/
structure CallInst where
  ID : Int
  Function : String
  Args : List Int
  Impl : Option Impl

/-- Modelled from the spec: the instruction variants (push-literal,
select-attribute, call, conditional or unconditional jump, enter-scope,
exit-scope). The walker that emits them is not under src/; the folding code
switches only on PushScopeInst, PopScopeInst and CallExpr. -/
inductive Instruction where
  | pushLiteral (id : Int) (v : RefVal)
  | selectAttr (id : Int)
  | call (c : CallInst)
  | jump (id : Int) (conditional : Bool)
  | pushScope (id : Int)
  | popScope (id : Int)

/-- Instruction.GetID: the originating expression id. -/
def Instruction.GetID : Instruction → Int
  | .pushLiteral id _ => id
  | .selectAttr id => id
  | .call c => c.ID
  | .jump id _ => id
  | .pushScope id => id
  | .popScope id => id

/-- Modelled from the spec: the per-evaluation scratch state, a mapping from
expression id to computed value (nil for absent). -/
structure EvalState where
  values : Int → Option RefVal

/-- Writes one scratch value. -/
def EvalState.set (s : EvalState) (id : Int) (v : RefVal) : EvalState :=
  ⟨fun k => if k = id then some v else s.values k⟩

/-- Modelled from the spec: trait satisfaction of a value, supplied by the
external types library (ref.Val.Type().HasTrait, not under src/). -/
structure TypeEnv where
  hasTrait : RefVal → Int → Bool

/-- maybeComputeConstCall: attempts constant evaluation of a bound call.
Succeeds only when the implementation is bound, the function is not part of
the iteration protocol, the arity is exactly 1 or 2, every argument already
has a scratch value, and any required operand trait holds of the first
argument. On success the computed result is recorded under the call id. -/
def maybeComputeConstCall (env : TypeEnv) (call : CallInst)
    (state : EvalState) : Bool × EvalState :=
  match call.Impl with
  | none => (false, state)
  | some impl =>
    if call.Function = notStrictlyFalse ∨ call.Function = oldNotStrictlyFalse ∨
        call.Function = iteratorOverload ∨ call.Function = hasNextOverload ∨
        call.Function = nextOverload then (false, state)
    else
      match call.Args with
      | [a0] =>
        match state.values a0 with
        | none => (false, state)
        | some v0 =>
          if impl.OperandTrait ≠ 0 ∧ ¬ env.hasTrait v0 impl.OperandTrait then
            (false, state)
          else (true, state.set call.ID (impl.Unary v0))
      | [a0, a1] =>
        match state.values a0, state.values a1 with
        | some v0, some v1 =>
          if impl.OperandTrait ≠ 0 ∧ ¬ env.hasTrait v0 impl.OperandTrait then
            (false, state)
          else (true, state.set call.ID (impl.Binary v0 v1))
        | _, _ => (false, state)
      | _ => (false, state)

/-- The scan of computeConstExprs: walks the instruction list with the
scope-depth counter nested, folding zero-depth constant calls and
accumulating the indices of instructions that became constant. A folded
binary logical and/or additionally marks the preceding index i - 1 (the
short-circuit jump in a short-circuiting plan). Returns the accumulated
constInsts indices and the updated scratch state. -/
def scanConsts (env : TypeEnv) :
    List Instruction → Int → Nat → EvalState → List Int → List Int × EvalState
  | [], _, _, state, acc => (acc, state)
  | inst :: rest, nested, i, state, acc =>
    match inst with
    | .pushScope _ => scanConsts env rest (nested + 1) (i + 1) state acc
    | .popScope _ => scanConsts env rest (nested - 1) (i + 1) state acc
    | .call c =>
      if nested ≠ 0 then scanConsts env rest nested (i + 1) state acc
      else
        if (maybeComputeConstCall env c state).1 then
          scanConsts env rest nested (i + 1) (maybeComputeConstCall env c state).2
            (if c.Function = logicalAnd ∨ c.Function = logicalOr then
              acc ++ [(i : Int) - 1, (i : Int)]
            else acc ++ [(i : Int)])
        else scanConsts env rest nested (i + 1) (maybeComputeConstCall env c state).2 acc
    | _ => scanConsts env rest nested (i + 1) state acc

/-- The inner while-loop of the compacting copy (for i < j), run for a fixed
number of iterations: copies instructions[i] into the output, faulting
(none) when a read or write index is out of range, exactly as the source
array accesses would. -/
def copyN (instrs : List Instruction) (optCnt : Nat) :
    Nat → Int → Nat → List Instruction → Option (Int × Nat × List Instruction)
  | 0, i, oi, acc => some (i, oi, acc)
  | n + 1, i, oi, acc =>
    if h : 0 ≤ i ∧ i.toNat < instrs.length ∧ oi < optCnt then
      copyN instrs optCnt n (i + 1) (oi + 1) (acc ++ [instrs.get ⟨i.toNat, h.2.1⟩])
    else none

/-- The outer loop of the compacting copy over constInsts: for each marked
index j, copy the instructions below j (the while i < j loop runs exactly
(j - i).toNat iterations), then resume at j + 1. -/
def spliceLoop (instrs : List Instruction) (optCnt : Nat) :
    List Int → Int → Nat → List Instruction → Option (Int × Nat × List Instruction)
  | [], i, oi, acc => some (i, oi, acc)
  | j :: js, i, oi, acc =>
    match copyN instrs optCnt (j - i).toNat i oi acc with
    | none => none
    | some (_, oi2, acc2) => spliceLoop instrs optCnt js (j + 1) oi2 acc2

/-- The trailing copy loop (for oi < optInstsCnt), which runs exactly
optCnt - oi iterations. -/
def copyTail (instrs : List Instruction) :
    Nat → Int → List Instruction → Option (List Instruction)
  | 0, _, acc => some acc
  | n + 1, i, acc =>
    if h : 0 ≤ i ∧ i.toNat < instrs.length then
      copyTail instrs n (i + 1) (acc ++ [instrs.get ⟨i.toNat, h.2⟩])
    else none

/-- The compacting pass of computeConstExprs: allocates the output of
length len - cnt (a fault when that is negative, as make would panic) and
copies the surviving instructions in order. -/
def spliceOut (instrs : List Instruction) (constInsts : List Int) :
    Option (List Instruction) :=
  if constInsts.length ≤ instrs.length then
    match spliceLoop instrs (instrs.length - constInsts.length) constInsts 0 0 [] with
    | none => none
    | some (i, oi, acc) => copyTail instrs (instrs.length - constInsts.length - oi) i acc
  else none

/-- A successful copyN advances the write cursor by exactly its iteration
count, extends the output accordingly, and (when it ran at all) leaves the
write cursor within the allocated output length. -/
theorem copyN_some (instrs : List Instruction) (optCnt : Nat) :
    ∀ (n : Nat) (i : Int) (oi : Nat) (acc : List Instruction) out,
      copyN instrs optCnt n i oi acc = some out →
      out.2.1 = oi + n ∧ out.2.2.length = acc.length + n ∧
        (n = 0 ∨ out.2.1 ≤ optCnt) := by
  intro n
  induction n with
  | zero =>
    intro i oi acc out h
    simp only [copyN] at h
    cases h
    simp
  | succ n ih =>
    intro i oi acc out h
    simp only [copyN] at h
    split at h
    · rename_i hcond
      have := ih (i + 1) (oi + 1) _ out h
      refine ⟨by omega, by simp at this ⊢; omega, Or.inr ?_⟩
      rcases this.2.2 with h0 | hle
      · omega
      · exact hle
    · exact absurd h (by simp)

/-- A successful spliceLoop preserves the invariant that the output length
equals the write cursor and the cursor stays within the allocation. -/
theorem spliceLoop_some (instrs : List Instruction) (optCnt : Nat) :
    ∀ (js : List Int) (i : Int) (oi : Nat) (acc : List Instruction) out,
      spliceLoop instrs optCnt js i oi acc = some out →
      acc.length = oi → oi ≤ optCnt →
      out.2.2.length = out.2.1 ∧ out.2.1 ≤ optCnt := by
  intro js
  induction js with
  | nil =>
    intro i oi acc out h hlen hle
    simp only [spliceLoop] at h
    cases h
    exact ⟨hlen, hle⟩
  | cons j js ih =>
    intro i oi acc out h hlen hle
    simp only [spliceLoop] at h
    split at h
    · exact absurd h (by simp)
    · rename_i i2 oi2 acc2 hcopy
      have hc := copyN_some instrs optCnt _ _ _ _ _ hcopy
      obtain ⟨hc1, hc2, hc3⟩ := hc
      simp only at hc1 hc2 hc3
      refine ih (j + 1) oi2 acc2 out h (by omega) ?_
      rcases hc3 with h0 | hb
      · omega
      · exact hb

/-- A successful copyTail extends the output by exactly its iteration
count. -/
theorem copyTail_some (instrs : List Instruction) :
    ∀ (n : Nat) (i : Int) (acc : List Instruction) r,
      copyTail instrs n i acc = some r → r.length = acc.length + n := by
  intro n
  induction n with
  | zero =>
    intro i acc r h
    simp only [copyTail] at h
    cases h
    simp
  | succ n ih =>
    intro i acc r h
    simp only [copyTail] at h
    split at h
    · have := ih (i + 1) _ r h
      simp at this ⊢
      omega
    · exact absurd h (by simp)

/-- A successful compacting pass produces exactly len - cnt instructions:
the output length plus the number of marked indices is the input length. -/
theorem spliceOut_length {instrs : List Instruction} {constInsts : List Int}
    {r : List Instruction} (h : spliceOut instrs constInsts = some r) :
    r.length + constInsts.length = instrs.length := by
  unfold spliceOut at h
  split at h
  · rename_i hle
    split at h
    · exact absurd h (by simp)
    · rename_i i oi acc hloop
      have hinv := spliceLoop_some instrs _ _ _ _ _ _ hloop (by simp) (by omega)
      obtain ⟨hi1, hi2⟩ := hinv
      simp only at hi1 hi2
      have htail := copyTail_some instrs _ _ _ _ h
      omega
  · exact absurd h (by simp)

/-- computeConstExprs: the fixpoint rewrite. One scan accumulates the
constant instruction indices; if none were found the pass stops, otherwise
the marked instructions are spliced out (none models an array-bounds panic
in the copy) and the whole scan repeats on the shrunken sequence. -/
def computeConstExprs (env : TypeEnv) (instrs : List Instruction)
    (state : EvalState) : Option (List Instruction × EvalState) :=
  match (scanConsts env instrs 0 0 state []).1 with
  | [] => some (instrs, (scanConsts env instrs 0 0 state []).2)
  | c0 :: cs =>
    match hs : spliceOut instrs (c0 :: cs) with
    | none => none
    | some optInsts =>
      computeConstExprs env optInsts (scanConsts env instrs 0 0 state []).2
termination_by instrs.length
decreasing_by
  have hlen := spliceOut_length hs
  simp only [List.length_cons] at hlen
  omega

/-- Modelled from the spec: an expression node, identified by its id. The
tree payload is irrelevant to the planning code under verification. -/
structure Expr where
  Id : Int
deriving DecidableEq, Repr

/-- programFlagTrackState. -/
def programFlagTrackState : Int := 1

/-- programFlagNoShortCircuit: disables short-circuit jumps so all branches
are evaluated. -/
def programFlagNoShortCircuit : Int := 2

/-- Go map write with overwrite semantics for the reverse index. -/
def mapInsert : List (Int × Nat) → Int → Nat → List (Int × Nat)
  | [], k, v => [(k, v)]
  | (k0, v0) :: rest, k, v =>
    if k0 = k then (k0, v) :: rest else (k0, v0) :: mapInsert rest k v

/-- Program: expression root, lazily built instruction sequence (none
models the nil slice before planning), reverse index from expression id to
instruction position, flags and result id. -/
structure Program where
  expression : Expr
  Instructions : Option (List Instruction)
  revInstructions : List (Int × Nat)
  flags : Int
  resultID : Int

/-- The reverse-index loop of plan: for i, inst in instructions,
revInstructions[inst.GetID()] = i. -/
def buildRev (m : List (Int × Nat)) : List Instruction → Nat → List (Int × Nat)
  | [], _ => m
  | inst :: rest, i => buildRev (mapInsert m inst.GetID i) rest (i + 1)

/-- plan: if instructions already exist this is a no-op; otherwise the tree
is walked into instructions (the walker is an external parameter here, as
WalkExpr is not under src/; the short-circuit flag is passed through), the
result id is recorded and the reverse index is filled. -/
def plan (walk : Expr → EvalState → Bool → List Instruction × EvalState)
    (p : Program) (state : EvalState) : Program × EvalState :=
  match p.Instructions with
  | some _ => (p, state)
  | none =>
    let shortcircuit : Bool := decide (Int.land p.flags programFlagNoShortCircuit = 0)
    let r := walk p.expression state shortcircuit
    ({ p with
        resultID := p.expression.Id,
        Instructions := some r.1,
        revInstructions := buildRev p.revInstructions r.1 0 }, r.2)

/-- GetInstruction: indexes the instruction slice at the reverse-index
entry for the runtime id; a missing map entry reads as the zero value 0,
and indexing an empty or nil slice faults (none). -/
def GetInstruction (p : Program) (runtimeID : Int) : Option Instruction :=
  (p.Instructions.getD []).get? ((assocLookup p.revInstructions runtimeID).getD 0)

/-- Source metadata: the sorted line-start offset table and the per-id
byte-offset table of exprpb.SourceInfo. -/
structure SourceInfo where
  LineOffsets : List Int
  Positions : List (Int × Int)

/-- exprMetadata.IDOffset: the recorded byte offset of an expression id. -/
def IDOffset (info : SourceInfo) (exprID : Int) : Option Int :=
  assocLookup info.Positions exprID

/-- The range loop of IDLocation: each iteration assigns index and
lineOffset, breaks as soon as lineOffset exceeds the expression offset
(leaving lineIndex at its previous value), else records lineIndex = index.
Returns the final (lineIndex, lineOffset) pair. -/
def locLoop : List Int → Nat → Nat → Int → Int → Nat × Int
  | [], _, lineIndex, lineOffset, _ => (lineIndex, lineOffset)
  | o :: rest, idx, lineIndex, _, exprOffset =>
    if o > exprOffset then (lineIndex, o)
    else locLoop rest (idx + 1) idx o exprOffset

/-- exprMetadata.IDLocation: line is lineIndex + 1 and column is the
expression offset minus the loop's final lineOffset variable. -/
def IDLocation (info : SourceInfo) (exprID : Int) : Option (Int × Int) :=
  match IDOffset info exprID with
  | none => none
  | some exprOffset =>
    let r := locLoop info.LineOffsets 0 0 0 exprOffset
    some (((r.1 : Int) + 1), exprOffset - r.2)

/-! Theorems settling the claims. -/

/-- Holds of the error and unknown sentinel values. -/
def isSentinel : GoVal → Bool
  | .ref (.err _) => true
  | .ref (.unknown _) => true
  | _ => false

/-- One selector step applied to a sentinel returns it unchanged. -/
theorem getElem_sentinel (res : DefaultResolver) (obj : GoVal) (e : RefVal)
    (h : isSentinel obj = true) : getElem res obj e = obj := by
  cases obj <;> try simp [isSentinel] at h
  rename_i v
  cases v <;> try simp [isSentinel] at h
  · rfl
  · rfl

/-- A full path walk starting from a sentinel returns it unchanged. -/
theorem walkPath_sentinel (res : DefaultResolver) (vars : Activation) :
    ∀ (post : List PathElem) (obj : GoVal), isSentinel obj = true →
      walkPath res vars obj post = obj := by
  intro post
  induction post with
  | nil => intro obj _; rfl
  | cons e rest ih =>
    intro obj h
    show walkPath res vars (getElem res obj (e.ToValue vars)) rest = obj
    rw [getElem_sentinel res obj _ h]
    exact ih obj h

/-- A shared resolver fixture whose adapter classifies nothing as
indexable. -/
def resPlain : DefaultResolver := ⟨fun _ => .nonIndexer (.err "adapter unused")⟩

/-- A shared activation fixture binding x to a one-entry string map, with no
unknown-candidate support. -/
def varsPlain : Activation :=
  ⟨fun n => if n = "x" then some (.mapStrIface [("a", .boolVal true)]) else none,
   none⟩

/-- C1: Resolve returns found = false exactly when the attribute's top-level
variable is absent from the activation; when the variable is present it
returns found = true and the walked path value, and a string-keyed lookup of
a missing key produces the no-such-key error sentinel rather than raising. -/
theorem resolve_found_flag_contract (res : DefaultResolver) (vars : Activation)
    (attr : Attribute) :
    ((defaultResolve res vars attr).2 = false ↔ vars.Find attr.Variable.Name = none)
    ∧ (∀ obj, vars.Find attr.Variable.Name = some obj →
        defaultResolve res vars attr = (some (walkPath res vars obj attr.Path), true))
    ∧ (∀ (m : List (String × GoVal)) (k : String), assocLookup m k = none →
        getElem res (.mapStrIface m) (.str k) = .ref (.err "no such key")) := by
  refine ⟨?_, ?_, ?_⟩
  · unfold defaultResolve
    cases hf : vars.Find attr.Variable.Name <;> simp
  · intro obj hf
    unfold defaultResolve
    rw [hf]
  · intro m k hk
    show (match assocLookup m k with
          | none => GoVal.ref (RefVal.err "no such key")
          | some v => v) = GoVal.ref (RefVal.err "no such key")
    rw [hk]

/-- Witness for C1 at a concrete activation: a present variable with a
missing map key resolves to (no-such-key error, found = true), and an
absent variable resolves to found = false. -/
theorem resolve_found_flag_contract_check :
    defaultResolve resPlain varsPlain ⟨⟨"x", 1⟩, [⟨2, .str "missing"⟩]⟩
      = (some (.ref (.err "no such key")), true)
    ∧ (defaultResolve resPlain varsPlain ⟨⟨"z", 9⟩, []⟩).2 = false := by
  constructor
  · exact (resolve_found_flag_contract resPlain varsPlain
      ⟨⟨"x", 1⟩, [⟨2, .str "missing"⟩]⟩).2.1
      (.mapStrIface [("a", .boolVal true)]) rfl
  · exact (resolve_found_flag_contract resPlain varsPlain
      ⟨⟨"z", 9⟩, []⟩).1.mpr rfl

/-- C2: once a selector step of a resolution produces an error or unknown
sentinel, every later selector step returns that identical sentinel
unchanged, so both ResolveRelative and (for a present variable) Resolve
return the sentinel produced at the prefix. -/
theorem sentinel_dominates_resolution (res : DefaultResolver)
    (vars : Activation) (obj : GoVal) (attr : Attribute)
    (pre post : List PathElem)
    (hsplit : attr.Path = pre ++ post)
    (hsent : isSentinel (walkPath res vars obj pre) = true) :
    (∀ e : RefVal, getElem res (walkPath res vars obj pre) e
        = walkPath res vars obj pre)
    ∧ defaultResolveRelative res obj vars attr = walkPath res vars obj pre
    ∧ (vars.Find attr.Variable.Name = some obj →
        defaultResolve res vars attr = (some (walkPath res vars obj pre), true)) := by
  have hw : walkPath res vars obj attr.Path = walkPath res vars obj pre := by
    rw [hsplit]
    unfold walkPath
    rw [List.foldl_append]
    exact walkPath_sentinel res vars post _ hsent
  refine ⟨fun e => getElem_sentinel res _ e hsent, ?_, ?_⟩
  · unfold defaultResolveRelative
    exact hw
  · intro hfind
    unfold defaultResolve
    rw [hfind]
    show (some (walkPath res vars obj attr.Path), true)
      = (some (walkPath res vars obj pre), true)
    rw [hw]

/-- Witness for C2: after the first selector fails on a concrete map, the
remaining selector leaves the same no-such-key sentinel in place for both
entry points. -/
theorem sentinel_dominates_resolution_check :
    defaultResolveRelative resPlain (.mapStrIface [("a", .boolVal true)])
        varsPlain ⟨⟨"x", 1⟩, [⟨2, .str "missing"⟩, ⟨3, .str "b"⟩]⟩
      = .ref (.err "no such key")
    ∧ defaultResolve resPlain varsPlain
        ⟨⟨"x", 1⟩, [⟨2, .str "missing"⟩, ⟨3, .str "b"⟩]⟩
      = (some (.ref (.err "no such key")), true) := by
  have h := sentinel_dominates_resolution resPlain varsPlain
    (.mapStrIface [("a", .boolVal true)])
    ⟨⟨"x", 1⟩, [⟨2, .str "missing"⟩, ⟨3, .str "b"⟩]⟩
    [⟨2, .str "missing"⟩] [⟨3, .str "b"⟩] rfl rfl
  exact ⟨h.2.1, h.2.2 rfl⟩

/-- C3 (code-bug evidence): the primitive-element map accessors lack the
return before the no-such-overload guard, so a non-string selector falls
through as the zero-value empty-string key: when the map happens to contain
the empty key its value is returned, otherwise a no-such-key error is
produced; the claimed no-such-overload sentinel appears only for the
map-of-values and map-of-strings shapes, shown for contrast. -/
theorem mapBool_nonstring_selector_misses_overload_guard :
    getElem resPlain (.mapStrBool [("", true)]) (.int 0) = .boolVal true
    ∧ getElem resPlain (.mapStrBool [("x", true)]) (.int 0)
        = .ref (.err "no such key")
    ∧ getElem resPlain (.mapStrStr [("x", "y")]) (.int 0)
        = .ref (.err "no such overload") :=
  ⟨rfl, rfl, rfl⟩

/-- The element-wise match condition of the spec: a candidate element
matches when it resolves to the wildcard marker or is value-equal to the
corresponding queried element. -/
def specElemMatches (vars : Activation) (c q : PathElem) : Bool :=
  decide (c.ToValue vars = wildcard) ||
    decide (refValEqual (c.ToValue vars) (q.ToValue vars) = RefVal.bool true)

/-- The candidate match condition of the spec: element-by-element agreement
up to the shorter of the two paths. -/
def specCandMatches (vars : Activation) (qPath cPath : List PathElem) : Bool :=
  (cPath.zip qPath).all (fun p => specElemMatches vars p.1 p.2)

/-- The unknown tag of the spec: the expression id of the last compared
queried element, or the variable id when no elements are compared. -/
def specLastComparedID (qPath cPath : List PathElem) (varID : Int) : Int :=
  match (qPath.take cPath.length).getLast? with
  | none => varID
  | some e => e.ID

/-- getLast? of a nonempty list is some element. -/
theorem getLast?_of_cons {α : Type} (b : α) (bs : List α) :
    ∃ a, (b :: bs).getLast? = some a := by
  induction bs generalizing b with
  | nil => exact ⟨b, by simp⟩
  | cons x xs ih =>
    obtain ⟨a, ha⟩ := ih x
    exact ⟨a, by rw [List.getLast?_cons_cons]; exact ha⟩

/-- Shifting the spec unknown tag across one compared element pair. -/
theorem specLastComparedID_cons (q : PathElem) (qs : List PathElem)
    (c : PathElem) (cs : List PathElem) (id0 : Int) :
    specLastComparedID (q :: qs) (c :: cs) id0 = specLastComparedID qs cs q.ID := by
  unfold specLastComparedID
  rw [List.length_cons, List.take_succ_cons]
  cases h0 : qs.take cs.length with
  | nil => simp [h0]
  | cons b bs =>
    rw [List.getLast?_cons_cons]
    obtain ⟨a, ha⟩ := getLast?_of_cons b bs
    rw [ha]

/-- The candidate loop decides exactly the element-wise spec condition. -/
theorem unknownMatchLoop_fst (vars : Activation) :
    ∀ (cPath qPath : List PathElem) (id0 : Int),
      (unknownMatchLoop vars cPath qPath id0).1 = specCandMatches vars qPath cPath := by
  intro cPath
  induction cPath with
  | nil => intro qPath id0; simp [unknownMatchLoop, specCandMatches]
  | cons c cs ih =>
    intro qPath id0
    cases qPath with
    | nil => simp [unknownMatchLoop, specCandMatches]
    | cons q qs =>
      simp only [unknownMatchLoop, specCandMatches, List.zip_cons_cons, List.all_cons]
      by_cases hw : c.ToValue vars = wildcard
      · rw [if_pos hw]
        have : specElemMatches vars c q = true := by
          simp [specElemMatches, hw]
        rw [this, ih qs q.ID]
        simp [specCandMatches]
      · rw [if_neg hw]
        by_cases he : refValEqual (c.ToValue vars) (q.ToValue vars) = RefVal.bool true
        · rw [if_pos he]
          have : specElemMatches vars c q = true := by
            simp [specElemMatches, he]
          rw [this, ih qs q.ID]
          simp [specCandMatches]
        · rw [if_neg he]
          have : specElemMatches vars c q = false := by
            simp [specElemMatches, hw, he]
          rw [this]
          simp

/-- On a match, the candidate loop returns the id of the last compared
queried element (the initial id when nothing is compared). -/
theorem unknownMatchLoop_snd (vars : Activation) :
    ∀ (cPath qPath : List PathElem) (id0 : Int),
      (unknownMatchLoop vars cPath qPath id0).1 = true →
      (unknownMatchLoop vars cPath qPath id0).2 = specLastComparedID qPath cPath id0 := by
  intro cPath
  induction cPath with
  | nil => intro qPath id0 _; simp [unknownMatchLoop, specLastComparedID]
  | cons c cs ih =>
    intro qPath id0 hm
    cases qPath with
    | nil => simp [unknownMatchLoop, specLastComparedID]
    | cons q qs =>
      have hstep := specLastComparedID_cons q qs c cs id0
      simp only [unknownMatchLoop] at hm ⊢
      by_cases hw : c.ToValue vars = wildcard
      · rw [if_pos hw] at hm ⊢
        rw [ih qs q.ID hm, hstep]
      · rw [if_neg hw] at hm ⊢
        by_cases he : refValEqual (c.ToValue vars) (q.ToValue vars) = RefVal.bool true
        · rw [if_pos he] at hm ⊢
          rw [ih qs q.ID hm, hstep]
        · rw [if_neg he] at hm
          simp at hm

/-- The outer candidate loop equals first-match selection under the spec
conditions. -/
theorem findUnknownMatch_spec (vars : Activation) (qPath : List PathElem)
    (varID : Int) :
    ∀ cands : List Attribute,
      findUnknownMatch vars qPath varID cands =
        (cands.find? (fun c => specCandMatches vars qPath c.Path)).map
          (fun c => specLastComparedID qPath c.Path varID) := by
  intro cands
  induction cands with
  | nil => rfl
  | cons cand rest ih =>
    by_cases hmatch : specCandMatches vars qPath cand.Path = true
    · rw [List.find?_cons_of_pos (p := fun c : Attribute => specCandMatches vars qPath c.Path)
        rest hmatch]
      have h1 := unknownMatchLoop_fst vars cand.Path qPath varID
      have h2 := unknownMatchLoop_snd vars cand.Path qPath varID
        (by rw [h1]; exact hmatch)
      simp only [findUnknownMatch]
      rw [h1, if_pos hmatch, h2]
      rfl
    · have hfalse : specCandMatches vars qPath cand.Path = false := by
        simpa using hmatch
      rw [List.find?_cons_of_neg (p := fun c : Attribute => specCandMatches vars qPath c.Path)
        rest (by simp [hfalse])]
      simp only [findUnknownMatch]
      rw [unknownMatchLoop_fst vars cand.Path qPath varID, hfalse, if_neg (by simp)]
      exact ih

/-- C4: over a partial activation exposing unknown-candidate lookup, when
the queried variable has declared candidates the resolver returns an
unknown sentinel for the first candidate whose path matches the queried
path element-by-element up to the shorter length (wildcard or value-equal),
tagged with the id of the last compared queried element (the variable id
when none are compared); with no matching candidate, or no candidates for
the variable, resolution falls through to the wrapped resolver. -/
theorem unknown_resolver_wildcard_match_contract (inner : Resolver)
    (vars : Activation) (attr : Attribute)
    (findUnk : String → Option (List Attribute))
    (hpartAct : vars.FindUnknowns = some findUnk) :
    (∀ cands, findUnk attr.Variable.Name = some cands →
      unknownResolverResolve inner vars attr =
        match cands.find? (fun c => specCandMatches vars attr.Path c.Path) with
        | some c => (some (.ref (.unknown
            [specLastComparedID attr.Path c.Path attr.Variable.ID])), true)
        | none => inner.Resolve vars attr)
    ∧ (findUnk attr.Variable.Name = none →
        unknownResolverResolve inner vars attr = inner.Resolve vars attr) := by
  constructor
  · intro cands hc
    simp only [unknownResolverResolve, hpartAct, hc]
    rw [findUnknownMatch_spec]
    cases hf : cands.find? (fun c => specCandMatches vars attr.Path c.Path) with
    | none => simp
    | some c => simp
  · intro hc
    simp only [unknownResolverResolve, hpartAct, hc]

/-- A partial activation declaring the unknown attribute x.* and binding the
ordinary variable z. -/
def varsPartialFixture : Activation :=
  ⟨fun n => if n = "z" then some (.mapStrIface [("y", .intVal 7)]) else none,
   some (fun n => if n = "x" then some [⟨⟨"x", 10⟩, [⟨11, .str "*"⟩]⟩] else none)⟩

/-- Witness for C4: querying x.y against declared unknown x.* yields an
unknown sentinel tagged with the queried wildcard-position element id, and
querying z.y (no candidates) falls through to ordinary resolution. -/
theorem unknown_resolver_wildcard_match_contract_check :
    unknownResolverResolve resPlain.toResolver varsPartialFixture
        ⟨⟨"x", 1⟩, [⟨2, .str "y"⟩]⟩
      = (some (.ref (.unknown [2])), true)
    ∧ unknownResolverResolve resPlain.toResolver varsPartialFixture
        ⟨⟨"z", 3⟩, [⟨4, .str "y"⟩]⟩
      = (some (.intVal 7), true) := by
  constructor
  · exact (unknown_resolver_wildcard_match_contract resPlain.toResolver
      varsPartialFixture ⟨⟨"x", 1⟩, [⟨2, .str "y"⟩]⟩ _ rfl).1
      [⟨⟨"x", 10⟩, [⟨11, .str "*"⟩]⟩] rfl
  · exact (unknown_resolver_wildcard_match_contract resPlain.toResolver
      varsPartialFixture ⟨⟨"z", 3⟩, [⟨4, .str "y"⟩]⟩ _ rfl).2 rfl

/-- Scope-depth contribution of one instruction: +1 for enter-scope, -1 for
exit-scope, 0 otherwise. -/
def instrDelta : Instruction → Int
  | .pushScope _ => 1
  | .popScope _ => -1
  | _ => 0

/-- The running scope-depth counter of the scan just before instruction i. -/
def nestedAt (l : List Instruction) (i : Nat) : Int :=
  ((l.take i).map instrDelta).sum

/-- The depth one step further accounts for the instruction at i. -/
theorem nestedAt_succ (l : List Instruction) (i : Nat) (inst : Instruction)
    (h : l.get? i = some inst) :
    nestedAt l (i + 1) = nestedAt l i + instrDelta inst := by
  unfold nestedAt
  rw [List.take_succ, ← List.get?_eq_getElem?, h]
  simp

/-- Every index accumulated by the scan is either inherited from the input
accumulator, or is the position of a call instruction at running depth
zero, or is the position immediately before such a call. -/
theorem scanConsts_mem (env : TypeEnv) :
    ∀ (l : List Instruction) (n : Int) (base : Nat) (s : EvalState)
      (acc : List Int) (x : Int),
      x ∈ (scanConsts env l n base s acc).1 →
      x ∈ acc ∨ ∃ (k : Nat) (c : CallInst), l.get? k = some (.call c) ∧
        n + nestedAt l k = 0 ∧
        (x = ((base + k : Nat) : Int) ∨ x = ((base + k : Nat) : Int) - 1) := by
  intro l
  induction l with
  | nil =>
    intro n base s acc x hx
    exact Or.inl hx
  | cons inst rest ih =>
    intro n base s acc x hx
    have hcons : ∀ (k : Nat),
        nestedAt (inst :: rest) (k + 1) = instrDelta inst + nestedAt rest k := by
      intro k
      unfold nestedAt
      rw [List.take_succ_cons]
      simp
    have hzero : nestedAt (inst :: rest) 0 = 0 := by
      unfold nestedAt
      simp
    have conv : ∀ (d m : Int), instrDelta inst = d → m = n + d →
        (∃ (k : Nat) (c : CallInst), rest.get? k = some (.call c) ∧
          m + nestedAt rest k = 0 ∧
          (x = ((base + 1 + k : Nat) : Int) ∨ x = ((base + 1 + k : Nat) : Int) - 1)) →
        ∃ (k : Nat) (c : CallInst), (inst :: rest).get? k = some (.call c) ∧
          n + nestedAt (inst :: rest) k = 0 ∧
          (x = ((base + k : Nat) : Int) ∨ x = ((base + k : Nat) : Int) - 1) := by
      rintro d m hd hm ⟨k, c, hk, hn2, hx2⟩
      refine ⟨k + 1, c, by simpa using hk, ?_, ?_⟩
      · rw [hcons k, hd]
        omega
      · rcases hx2 with h | h
        · left; omega
        · right; omega
    cases inst with
    | pushScope id =>
      rcases ih (n + 1) (base + 1) s acc x hx with h | h
      · exact Or.inl h
      · exact Or.inr (conv 1 (n + 1) rfl rfl h)
    | popScope id =>
      rcases ih (n - 1) (base + 1) s acc x hx with h | h
      · exact Or.inl h
      · exact Or.inr (conv (-1) (n - 1) rfl (by omega) h)
    | pushLiteral id v =>
      rcases ih n (base + 1) s acc x hx with h | h
      · exact Or.inl h
      · exact Or.inr (conv 0 n rfl (by omega) h)
    | selectAttr id =>
      rcases ih n (base + 1) s acc x hx with h | h
      · exact Or.inl h
      · exact Or.inr (conv 0 n rfl (by omega) h)
    | jump id b =>
      rcases ih n (base + 1) s acc x hx with h | h
      · exact Or.inl h
      · exact Or.inr (conv 0 n rfl (by omega) h)
    | call c0 =>
      by_cases hn0 : n ≠ 0
      · have hx2 : x ∈ (scanConsts env rest n (base + 1) s acc).1 := by
          have hstep : scanConsts env (Instruction.call c0 :: rest) n base s acc
              = scanConsts env rest n (base + 1) s acc := by
            simp only [scanConsts, if_pos hn0]
          rwa [hstep] at hx
        rcases ih n (base + 1) s acc x hx2 with h | h
        · exact Or.inl h
        · exact Or.inr (conv 0 n rfl (by omega) h)
      · push_neg at hn0
        subst hn0
        have hred : scanConsts env (Instruction.call c0 :: rest) 0 base s acc
            = (if (maybeComputeConstCall env c0 s).1 then
                scanConsts env rest 0 (base + 1) (maybeComputeConstCall env c0 s).2
                  (if c0.Function = logicalAnd ∨ c0.Function = logicalOr then
                    acc ++ [(base : Int) - 1, (base : Int)]
                  else acc ++ [(base : Int)])
              else scanConsts env rest 0 (base + 1) (maybeComputeConstCall env c0 s).2 acc) := by
          simp only [scanConsts, if_neg (by omega : ¬ ((0 : Int) ≠ 0))]
        rw [hred] at hx
        have hwit0 : (x = (base : Int) ∨ x = (base : Int) - 1) →
            ∃ (k : Nat) (c : CallInst),
              (Instruction.call c0 :: rest).get? k = some (.call c) ∧
              (0 : Int) + nestedAt (Instruction.call c0 :: rest) k = 0 ∧
              (x = ((base + k : Nat) : Int) ∨ x = ((base + k : Nat) : Int) - 1) := by
          intro hx0
          refine ⟨0, c0, rfl, ?_, ?_⟩
          · rw [hzero]
            omega
          · rcases hx0 with h | h
            · left; omega
            · right; omega
        by_cases hb : (maybeComputeConstCall env c0 s).1
        · rw [if_pos hb] at hx
          by_cases hao : c0.Function = logicalAnd ∨ c0.Function = logicalOr
          · rw [if_pos hao] at hx
            rcases ih 0 (base + 1) _ _ x hx with h | h
            · rcases List.mem_append.mp h with h2 | h2
              · exact Or.inl h2
              · simp only [List.mem_cons, List.mem_singleton] at h2
                exact Or.inr (hwit0 (by tauto))
            · exact Or.inr (conv 0 0 rfl (by omega) h)
          · rw [if_neg hao] at hx
            rcases ih 0 (base + 1) _ _ x hx with h | h
            · rcases List.mem_append.mp h with h2 | h2
              · exact Or.inl h2
              · simp only [List.mem_singleton] at h2
                exact Or.inr (hwit0 (Or.inl h2))
            · exact Or.inr (conv 0 0 rfl (by omega) h)
        · rw [if_neg hb] at hx
          rcases ih 0 (base + 1) _ acc x hx with h | h
          · exact Or.inl h
          · exact Or.inr (conv 0 0 rfl (by omega) h)

/-- C6: a call instruction located at nonzero scope depth (the running
counter of enter-scope minus exit-scope instructions before it) is never
marked by the folding scan, regardless of operand constancy. -/
theorem nested_call_excluded_from_folding (env : TypeEnv)
    (l : List Instruction) (s : EvalState) (i : Nat) (c : CallInst)
    (hcall : l.get? i = some (.call c))
    (hdepth : nestedAt l i ≠ 0) :
    ((i : Nat) : Int) ∉ (scanConsts env l 0 0 s []).1 := by
  intro hmem
  rcases scanConsts_mem env l 0 0 s [] _ hmem with h | ⟨k, c2, hk, hn, hx⟩
  · simp at h
  · simp only [Nat.zero_add] at hx
    rcases hx with h | h
    · have hki : k = i := by omega
      subst hki
      omega
    · have hki : k = i + 1 := by omega
      subst hki
      have hsucc := nestedAt_succ l i (.call c) hcall
      have hdelta : instrDelta (.call c) = 0 := rfl
      rw [hdelta] at hsucc
      omega

/-- Trait environment fixture declaring no traits. -/
def envPlain : TypeEnv := ⟨fun _ _ => false⟩

/-- A concrete binary implementation for the logical-and operator. -/
def andImpl : Impl :=
  ⟨0, fun v => v, fun a b =>
    match a, b with
    | .bool x, .bool y => .bool (x && y)
    | _, _ => .err "no such overload"⟩

/-- A concrete binary implementation for an equality operator. -/
def eqImpl : Impl :=
  ⟨0, fun v => v, fun a b => .bool (decide (a = b))⟩

/-- Scratch-state fixture holding literal values for ids 1 and 2. -/
def statePair : EvalState :=
  ⟨fun k => if k = 1 then some (.bool true)
            else if k = 2 then some (.bool false) else none⟩

/-- Witness for C6: a constant-argument call between enter-scope and
exit-scope markers is not marked by the scan. -/
theorem nested_call_excluded_from_folding_check :
    ((1 : Nat) : Int) ∉ (scanConsts envPlain
      [.pushScope 5, .call ⟨6, "_+_", [1, 2], some andImpl⟩, .popScope 7]
      0 0 statePair []).1 :=
  nested_call_excluded_from_folding envPlain
    [.pushScope 5, .call ⟨6, "_+_", [1, 2], some andImpl⟩, .popScope 7]
    statePair 1 ⟨6, "_+_", [1, 2], some andImpl⟩ rfl (by decide)

/-- C7: the folding fixpoint terminates because every pass either performs
zero foldings and stops (returning the sequence unchanged) or marks at
least one instruction, and a successful compaction then strictly shrinks
the sequence; the Lean definition of computeConstExprs is total on exactly
this measure. -/
theorem const_fold_pass_shrinks_or_stops (env : TypeEnv)
    (l : List Instruction) (s : EvalState) :
    ((scanConsts env l 0 0 s []).1 = []
        ∧ computeConstExprs env l s = some (l, (scanConsts env l 0 0 s []).2))
    ∨ ((scanConsts env l 0 0 s []).1 ≠ []
        ∧ ∀ r, spliceOut l (scanConsts env l 0 0 s []).1 = some r →
            r.length < l.length) := by
  cases hscan : (scanConsts env l 0 0 s []).1 with
  | nil =>
    left
    refine ⟨rfl, ?_⟩
    unfold computeConstExprs
    rw [hscan]
  | cons c0 cs =>
    right
    refine ⟨by simp, ?_⟩
    intro r hr
    have hlen := spliceOut_length hr
    simp only [List.length_cons] at hlen
    omega

/-- Witness for C7 on the empty program: the pass performs zero foldings
and stops with the sequence unchanged. -/
theorem const_fold_pass_shrinks_or_stops_check :
    computeConstExprs envPlain [] statePair = some ([], statePair) := by
  rcases const_fold_pass_shrinks_or_stops envPlain [] statePair with ⟨_, h2⟩ | ⟨h1, _⟩
  · exact h2
  · exact absurd rfl h1

/-- The instruction sequence of a no-short-circuit plan for an expression
like x.y == (true && false): the select for x.y, the logical-and call over
the literal ids 1 and 2, and the equality call — no conditional jump is
emitted for the and. -/
def instrsNoSC : List Instruction :=
  [.selectAttr 10,
   .call ⟨11, logicalAnd, [1, 2], some andImpl⟩,
   .call ⟨12, "_==_", [10, 11], some eqImpl⟩]

/-- C5 (code-bug evidence): in a no-short-circuit plan the fold of the
logical-and call at index 1 also marks index 0 for removal, but the
instruction there is the select-attribute step, not a conditional jump
(none was emitted), and the compaction deletes it: only the equality call
survives the pass. -/
theorem logical_fold_removes_preceding_nonjump :
    (scanConsts envPlain instrsNoSC 0 0 statePair []).1 = [0, 1]
    ∧ instrsNoSC.get? 0 = some (.selectAttr 10)
    ∧ spliceOut instrsNoSC [0, 1]
        = some [.call ⟨12, "_==_", [10, 11], some eqImpl⟩] :=
  ⟨rfl, rfl, rfl⟩

/-- C8: planning is idempotent — after one plan call the instructions
exist, so a second call is a no-op and returns the identical program
(instruction sequence, reverse index and all) and state. -/
theorem plan_idempotent
    (walk : Expr → EvalState → Bool → List Instruction × EvalState)
    (p : Program) (s : EvalState) :
    plan walk (plan walk p s).1 (plan walk p s).2 = plan walk p s := by
  cases hp : p.Instructions with
  | some l => simp [plan, hp]
  | none => simp [plan, hp]

/-- Source-info fixture: line starts at offsets 0 and 10, expression 1 at
byte offset 5 (before the second line start), expression 7 at offset 12
(at or after every line start). -/
def infoFixture : SourceInfo := ⟨[0, 10], [(1, 5), (7, 12)]⟩

/-- C9 (code-bug evidence): when the loop breaks (a later line start
exceeds the expression offset), the column is computed from the breaking
offset rather than the selected line start: expression 1 at offset 5 gets
line 1 (correct) but column 5 - 10 = -5 instead of 5 - 0 = 5. When no
break occurs (expression 7 at offset 12) the code agrees with the claim:
line 2, column 12 - 10 = 2. -/
theorem idlocation_negative_column_on_break :
    IDLocation infoFixture 1 = some (1, -5)
    ∧ IDLocation infoFixture 7 = some (2, 2) :=
  ⟨rfl, rfl⟩

/-- C10: with the reverse index missing the queried runtime id, the map
read yields the zero value 0, so GetInstruction returns the instruction at
position 0 of a non-empty sequence rather than signalling absence, and
faults on an empty or nil sequence. -/
theorem getinstruction_absent_id_defaults_to_first (p : Program) (id : Int)
    (habsent : assocLookup p.revInstructions id = none) :
    (∀ (inst0 : Instruction) (rest : List Instruction),
        p.Instructions = some (inst0 :: rest) → GetInstruction p id = some inst0)
    ∧ ((p.Instructions = none ∨ p.Instructions = some []) →
        GetInstruction p id = none) := by
  constructor
  · intro inst0 rest hinst
    unfold GetInstruction
    rw [habsent, hinst]
    rfl
  · rintro (h | h) <;> (unfold GetInstruction; rw [habsent, h]) <;> rfl

/-- Program fixture with two instructions and a reverse index lacking id
99. -/
def progFixture : Program :=
  ⟨⟨1⟩, some [.selectAttr 4, .selectAttr 5], [(4, 0), (5, 1)], 0, 1⟩

/-- Program fixture before planning (nil instructions). -/
def progEmptyFixture : Program := ⟨⟨1⟩, none, [], 0, 1⟩

/-- Witness for C10: id 99 is absent from both fixtures; the populated
program yields its first instruction, the unplanned one faults. -/
theorem getinstruction_absent_id_defaults_to_first_check :
    GetInstruction progFixture 99 = some (.selectAttr 4)
    ∧ GetInstruction progEmptyFixture 99 = none := by
  constructor
  · exact (getinstruction_absent_id_defaults_to_first progFixture 99 rfl).1
      (.selectAttr 4) [.selectAttr 5] rfl
  · exact (getinstruction_absent_id_defaults_to_first progEmptyFixture 99 rfl).2
      (Or.inl rfl)

end CelCore
